import Mathlib

/-!
Verification development for the AI Anomaly Service
(`src/apps/ai-anomaly/main.py`), a single-file HTTP service of stateless
heuristic analysis endpoints.  Each Python function that the claims touch is
shallowly embedded below: Python `dict`s become insertion-ordered association
lists, `float` arithmetic becomes exact `ℚ` (or `ℝ` where `math.sqrt` is
involved), byte strings become lists of hex digits (`Fin 16`), and the
decoder's `while` loop becomes a fueled recursion with fuel equal to the
byte-sequence length (the loop advances the cursor by at least one each
iteration, so that fuel always suffices; this is proved below).
-/

set_option maxRecDepth 40000

/-- Python `dict.get(k, default)`: value at the first matching key, else the
default (keys are unique in a Python dict, so "first" is "the"). -/
def dgetD {κ α : Type} [DecidableEq κ] : List (κ × α) → κ → α → α
  | [], _, dflt => dflt
  | p :: rest, k, dflt => if p.1 = k then p.2 else dgetD rest k dflt

/-- Python `d[k] = v`: replace the value at an existing key in place, else
append the new key at the end (Python dicts preserve insertion order). -/
def dsetD {κ α : Type} [DecidableEq κ] : List (κ × α) → κ → α → List (κ × α)
  | [], k, v => [(k, v)]
  | p :: rest, k, v => if p.1 = k then (k, v) :: rest else p :: dsetD rest k v

/-- Python `k in d`: key membership. -/
def dHasKey {κ α : Type} [DecidableEq κ] (d : List (κ × α)) (k : κ) : Bool :=
  d.any (fun p => decide (p.1 = k))

/-- Lines 847-869 of `main.py`: the static `OPCODE_MAP` dict literal inside
`decode_evm_bytecode`, mapping a byte value to a mnemonic. -/
def OPCODE_MAP : List (Nat × String) := [
  (0x00, "STOP"), (0x01, "ADD"), (0x02, "MUL"), (0x03, "SUB"), (0x04, "DIV"),
  (0x05, "SDIV"), (0x06, "MOD"), (0x07, "SMOD"), (0x08, "ADDMOD"),
  (0x09, "MULMOD"), (0x0a, "EXP"), (0x0b, "SIGNEXTEND"),
  (0x10, "LT"), (0x11, "GT"), (0x12, "SLT"), (0x13, "SGT"), (0x14, "EQ"),
  (0x15, "ISZERO"), (0x16, "AND"), (0x17, "OR"), (0x18, "XOR"),
  (0x19, "BYTE"), (0x1b, "SHL"), (0x1c, "SHR"), (0x1d, "SAR"),
  (0x20, "KECCAK256"), (0x30, "ADDRESS"), (0x31, "BALANCE"),
  (0x32, "ORIGIN"), (0x33, "CALLER"), (0x34, "CALLVALUE"),
  (0x35, "CALLDATALOAD"), (0x36, "CALLDATASIZE"), (0x37, "CALLDATACOPY"),
  (0x38, "CODESIZE"), (0x39, "CODECOPY"), (0x3a, "GASPRICE"),
  (0x3b, "EXTCODESIZE"), (0x3c, "EXTCODECOPY"), (0x3d, "RETURNDATASIZE"),
  (0x3e, "RETURNDATACOPY"), (0x3f, "EXTCODEHASH"),
  (0x40, "BLOCKHASH"), (0x41, "COINBASE"), (0x42, "TIMESTAMP"),
  (0x43, "NUMBER"), (0x44, "DIFFICULTY"), (0x45, "GASLIMIT"),
  (0x50, "POP"), (0x51, "MLOAD"), (0x52, "MSTORE"), (0x53, "MSTORE8"),
  (0x54, "SLOAD"), (0x55, "SSTORE"), (0x56, "JUMP"), (0x57, "JUMPI"),
  (0x58, "PC"), (0x59, "MSIZE"), (0x5a, "GAS"), (0x5b, "JUMPDEST"),
  (0xf0, "CREATE"), (0xf1, "CALL"), (0xf2, "CALLCODE"),
  (0xf3, "RETURN"), (0xf4, "DELEGATECALL"), (0xf5, "CREATE2"),
  (0xfa, "STATICCALL"), (0xfd, "REVERT"), (0xfe, "INVALID"),
  (0xff, "SELFDESTRUCT")]

/-- Line 820 of `main.py`: `[code[i:i+2] for i in range(0, len(code), 2)]`
followed by `int(tok, 16)` at line 824.  The hex-digit string is split into
two-character tokens; when the digit count is odd the final token is a single
character, whose parsed value is the digit itself (0..15). -/
def chunk2 : List (Fin 16) → List Nat
  | [] => []
  | [d] => [d.val]
  | a :: b :: rest => (16 * a.val + b.val) :: chunk2 rest

/-- Lines 822-871 of `main.py`: the decoder's `while i < len(bytes_seq)` scan,
written with explicit fuel (the loop advances `i` by at least 1 per
iteration, so fuel = length of the remaining byte list always suffices). -/
def decodeOpsF : Nat → List Nat → List String
  | 0, _ => []
  | _ + 1, [] => []
  | fuel + 1, b :: rest =>
    if 0x60 ≤ b ∧ b ≤ 0x7f then
      -- PUSH1 .. PUSH32: skip `b - 0x5f` immediate bytes (line 826-830)
      ("PUSH" ++ toString (b - 0x5f)) :: decodeOpsF fuel (rest.drop (b - 0x5f))
    else if 0x80 ≤ b ∧ b ≤ 0x8f then
      ("DUP" ++ toString (b - 0x7f)) :: decodeOpsF fuel rest
    else if 0x90 ≤ b ∧ b ≤ 0x9f then
      ("SWAP" ++ toString (b - 0x8f)) :: decodeOpsF fuel rest
    else if 0xa0 ≤ b ∧ b ≤ 0xa4 then
      ("LOG" ++ toString (b - 0xa0)) :: decodeOpsF fuel rest
    else
      dgetD OPCODE_MAP b "UNKNOWN" :: decodeOpsF fuel rest

/-- The decoder scan applied to a byte-value list. -/
def decodeOps (bs : List Nat) : List String := decodeOpsF bs.length bs

/-- Lines 810-872 of `main.py`, `decode_evm_bytecode`.  The input is the list of
hex digits of the bytecode string after the optional `0x` prefix has been
stripped (line 818). -/
def decode_evm_bytecode (digits : List (Fin 16)) : List String :=
  decodeOps (chunk2 digits)

/-- Lines 793-808 of `main.py`: the intrinsic gas cost dict literal.  Opcodes
absent from this table (all push/dup/swap variants among others) default to a
cost of 3 at the lookup site. -/
def INTRINSIC_GAS_COSTS : List (String × Nat) := [
  ("STOP", 0),
  ("ADD", 3), ("MUL", 5), ("SUB", 3), ("DIV", 5), ("SDIV", 5), ("MOD", 5),
  ("SMOD", 5),
  ("EXP", 50), ("SIGNEXTEND", 5),
  ("LT", 3), ("GT", 3), ("SLT", 3), ("SGT", 3), ("EQ", 3), ("ISZERO", 3),
  ("AND", 3),
  ("OR", 3), ("XOR", 3), ("BYTE", 3), ("SHL", 3), ("SHR", 3), ("SAR", 3),
  ("KECCAK256", 30),
  ("POP", 2),
  ("MLOAD", 3), ("MSTORE", 3), ("MSTORE8", 3), ("SLOAD", 100),
  ("SSTORE", 20000),
  ("JUMP", 8), ("JUMPI", 10),
  ("PC", 2), ("MSIZE", 2), ("GAS", 2), ("JUMPDEST", 1),
  ("CALL", 700), ("CALLCODE", 700), ("DELEGATECALL", 700),
  ("STATICCALL", 700),
  ("LOG0", 375), ("LOG1", 750), ("LOG2", 1125), ("LOG3", 1500),
  ("LOG4", 1875),
  ("CREATE", 32000), ("CREATE2", 32000),
  ("RETURN", 0), ("REVERT", 0), ("INVALID", 0), ("SELFDESTRUCT", 5000)]

/-- Lines 891-893 of `main.py`: the SSTORE recommendation f-string. -/
def sstoreRecString (n : Nat) : String :=
  "Contract performs " ++ toString n ++
    " SSTORE operations. Consider reducing state writes or using cheaper storage patterns."

/-- Lines 897-899 of `main.py`: the LOG recommendation f-string. -/
def logRecString (n : Nat) : String :=
  "Contract emits " ++ toString n ++
    " LOG events. Excessive event logging can be costly; remove unneeded events."

/-- Lines 903-905 of `main.py`: the external-call recommendation f-string. -/
def callRecString (n : Nat) : String :=
  "Detected " ++ toString n ++
    " external call operations. External calls consume extra gas; minimize calls or batch operations."

/-- Lines 909-911 of `main.py`: the unknown-opcode recommendation f-string. -/
def unknownRecString (n : Nat) : String :=
  "Found " ++ toString n ++
    " unknown opcodes. Ensure the bytecode targets the correct EVM version and avoid obfuscated code."

/-- Lines 914-916 of `main.py`: the generic fallback recommendation. -/
def genericRecString : String :=
  "No significant gas issues detected by heuristic analysis. Consider using a formal optimizer or auditing tool for deeper insights."

/-- Lines 886-916 of `main.py`: the four threshold rules plus generic fallback,
applied in source order to the frequency map (appends build the list in the
same order as the successive `recommendations.append` calls). -/
def buildRecs (counts : List (String × Nat)) : List String :=
  let sstore_count := dgetD counts "SSTORE" 0
  let recs1 : List String :=
    if 10 < sstore_count then [sstoreRecString sstore_count] else []
  let log_ops :=
    (List.range 5).foldl (fun a i => a + dgetD counts ("LOG" ++ toString i) 0) 0
  let recs2 := recs1 ++ (if 10 < log_ops then [logRecString log_ops] else [])
  let call_ops := dgetD counts "CALL" 0 + dgetD counts "DELEGATECALL" 0 +
    dgetD counts "STATICCALL" 0
  let recs3 := recs2 ++ (if 5 < call_ops then [callRecString call_ops] else [])
  let unknown_ops := dgetD counts "UNKNOWN" 0
  let recs4 := recs3 ++
    (if 0 < unknown_ops then [unknownRecString unknown_ops] else [])
  if recs4 = [] then [genericRecString] else recs4

/-- Response shape of `/analyze_contract` (`main.py` lines 54-65); the Python
`Dict[str, int]` is an insertion-ordered association list and the float
`estimated_gas` is exact `ℚ`. -/
structure ContractAnalysisResponse where
  opcode_counts : List (String × Nat)
  estimated_gas : ℚ
  recommendations : List String
  deriving DecidableEq

/-- Lines 874-917 of `main.py`, `analyze_bytecode`: decode, tally counts and
accumulate gas in one pass over the opcode list, then apply the heuristic
recommendation rules. -/
def analyze_bytecode (digits : List (Fin 16)) : ContractAnalysisResponse :=
  let opcode_list := decode_evm_bytecode digits
  let cg := opcode_list.foldl
    (fun (acc : List (String × Nat) × ℚ) op =>
      (dsetD acc.1 op (dgetD acc.1 op 0 + 1),
       acc.2 + ((dgetD INTRINSIC_GAS_COSTS op 3 : Nat) : ℚ)))
    ([], 0)
  ⟨cg.1, cg.2, buildRecs cg.1⟩

/-- The alphabet the decoder can emit: push/dup/swap/log families, the static
opcode table values, or the sentinel. -/
def isValidOpcodeName (s : String) : Prop :=
  (∃ k, 1 ≤ k ∧ k ≤ 32 ∧ s = "PUSH" ++ toString k) ∨
  (∃ k, 1 ≤ k ∧ k ≤ 16 ∧ s = "DUP" ++ toString k) ∨
  (∃ k, 1 ≤ k ∧ k ≤ 16 ∧ s = "SWAP" ++ toString k) ∨
  (∃ k, k ≤ 4 ∧ s = "LOG" ++ toString k) ∨
  s ∈ OPCODE_MAP.map Prod.snd ∨ s = "UNKNOWN"

/-- A bytecode consisting of `n` copies of the byte `0x55` (`SSTORE`). -/
def digits55 (n : Nat) : List (Fin 16) :=
  (List.replicate n [(5 : Fin 16), 5]).flatten

/-- Response of `/forecast_series` (`main.py` lines 314-323) over exact `ℚ`. -/
structure ForecastResponse where
  predictions : List ℚ
  slope : ℚ
  intercept : ℚ
  deriving DecidableEq

/-- Lines 325-350 of `main.py`, `forecast_time_series`: least-squares linear
regression on index vs value, with the short-input early return.  `horizon`
is a Python `int` (may be negative: `[x] * h` is then empty, which is what
`Int.toNat` mirrors), and `values[-1] if values else 0.0` is `getLastD 0`. -/
def forecast_time_series (values : List ℚ) (horizon : Int) : ForecastResponse :=
  let n := values.length
  if n < 2 then
    let last_val := values.getLastD 0
    ⟨List.replicate horizon.toNat last_val, 0, last_val⟩
  else
    let mean_x : ℚ := ((List.range n).map (fun (i : Nat) => (i : ℚ))).sum / (n : ℚ)
    let mean_y : ℚ := values.sum / (n : ℚ)
    let num : ℚ :=
      ((List.range n).map
        (fun (i : Nat) => ((i : ℚ) - mean_x) * (values.getD i 0 - mean_y))).sum
    let den0 : ℚ := ((List.range n).map (fun (i : Nat) => ((i : ℚ) - mean_x) ^ 2)).sum
    -- `den = ... or 1e-8` (line 344): replace a zero denominator by 1e-8
    let den : ℚ := if den0 = 0 then 1 / 100000000 else den0
    let slope := num / den
    let intercept := mean_y - slope * mean_x
    let predictions :=
      (List.range horizon.toNat).map (fun j => slope * ((n + j : Nat) : ℚ) + intercept)
    ⟨predictions, slope, intercept⟩

/-- Lines 68-79 of `main.py`, the transaction record for MEV detection. -/
structure TransactionInfo where
  tx_hash : String
  from_address : String
  to_address : String
  value : ℚ
  timestamp : Int
  gas_price : ℚ
  deriving DecidableEq

/-- The `details: Dict[str, Any]` payloads that `detect_mev_bot` can build. -/
inductive MEVDetail where
  | reason (s : String)
  | sandwich (indexes : List Nat) (bot victim : String)
  | frontRun (pair : List Nat) (bot victim : String)
  | liquidation (target : String) (count : Nat)
  | empty
  deriving DecidableEq

/-- Response of `/detect_mev` (`main.py` lines 91-100). -/
structure MEVDetectionResponse where
  bot_type : String
  mev_strategy : String
  spam_score : ℚ
  details : MEVDetail
  deriving DecidableEq

/-- Python `str.lower()`. -/
def strToLower (s : String) : String := ⟨s.data.map Char.toLower⟩

/-- Insert a transaction after all entries with timestamp ≤ its own:
the insertion step of a stable sort by timestamp. -/
def insOrd (t : TransactionInfo) : List TransactionInfo → List TransactionInfo
  | [] => [t]
  | x :: xs => if x.timestamp ≤ t.timestamp then x :: insOrd t xs else t :: x :: xs

/-- Line 598 of `main.py`, `sorted(transactions, key=lambda t: t.timestamp)`:
a stable sort by timestamp (insertion sort, which is stable, matching
Python's stable `sorted`). -/
def sortTxs (l : List TransactionInfo) : List TransactionInfo :=
  l.foldl (fun acc t => insOrd t acc) []

/-- Lines 604-620 of `main.py`: the sandwich-pattern window scan with its
`break` (first match wins); returns the match index and the pair (a, b). -/
def sandwichScan (i : Nat) : List TransactionInfo → Option (Nat × TransactionInfo × TransactionInfo)
  | a :: b :: c :: rest =>
    if strToLower a.from_address = strToLower c.from_address ∧
        strToLower a.to_address = strToLower c.to_address ∧
        strToLower b.from_address ≠ strToLower a.from_address ∧
        b.timestamp - a.timestamp < 30 ∧ a.gas_price < b.gas_price then
      some (i, a, b)
    else sandwichScan (i + 1) (b :: c :: rest)
  | _ => none

/-- Lines 622-635 of `main.py`: the front-running adjacent-pair scan with its
`break`; returns the match index and the pair (victim, suspect). -/
def frontRunScan (i : Nat) : List TransactionInfo → Option (Nat × TransactionInfo × TransactionInfo)
  | victim :: suspect :: rest =>
    if victim.gas_price * (6 / 5 : ℚ) < suspect.gas_price ∧
        suspect.timestamp - victim.timestamp < 20 then
      some (i, victim, suspect)
    else frontRunScan (i + 1) (suspect :: rest)
  | _ => none

/-- Lines 639-641 of `main.py`: occurrence counts of lowercased `to_address`. -/
def targetCounts (txs : List TransactionInfo) : List (String × Nat) :=
  txs.foldl (fun d tx =>
    dsetD d (strToLower tx.to_address) (dgetD d (strToLower tx.to_address) 0 + 1)) []

/-- Python `max` over a list, by left fold (used under a nonempty guard). -/
def listMaxD : List ℚ → ℚ
  | [] => 0
  | x :: xs => xs.foldl max x

def mevGasPrices (txs : List TransactionInfo) : List ℚ := txs.map (·.gas_price)

/-- Line 663 of `main.py`: `denominator = max_gas if max_gas != 0 else 1`. -/
def mevDenominator (gps : List ℚ) : ℚ :=
  if listMaxD gps ≠ 0 then listMaxD gps else 1

/-- Lines 657-658 of `main.py`: population variance of the gas prices. -/
def mevVariance (gps : List ℚ) : ℚ :=
  let mean_gas := gps.sum / (gps.length : ℚ)
  (gps.map (fun gp => (gp - mean_gas) ^ 2)).sum / (gps.length : ℚ)

/-- Lines 588-665 of `main.py`, `detect_mev_bot`: the detector cascade — the
`if spam_score == 0.0` guards between phases are the fall-through of this
match chain (each earlier phase sets a non-zero spam score). -/
def detect_mev_bot (transactions : List TransactionInfo) : MEVDetectionResponse :=
  if transactions.length < 2 then
    ⟨"none", "none", 0, MEVDetail.reason "not enough data"⟩
  else
    let txs := sortTxs transactions
    match sandwichScan 0 txs with
    | some (i, a, b) =>
      ⟨"arbitrage_bot", "sandwich", 9 / 10,
        MEVDetail.sandwich [i, i + 1, i + 2] b.from_address a.from_address⟩
    | none =>
      match frontRunScan 0 txs with
      | some (i, victim, suspect) =>
        ⟨"sniper_bot", "front_running", 7 / 10,
          MEVDetail.frontRun [i, i + 1] suspect.from_address victim.from_address⟩
      | none =>
        match (targetCounts txs).find? (fun p => decide (3 ≤ p.2)) with
        | some (addr, count) =>
          ⟨"liquidation_bot", "liquidation", 4 / 5,
            MEVDetail.liquidation addr count⟩
        | none =>
          let gas_prices := mevGasPrices txs
          if gas_prices.isEmpty then ⟨"none", "none", 0, MEVDetail.empty⟩
          else
            ⟨"none", "none",
              min (mevVariance gas_prices / mevDenominator gas_prices) (1 / 5),
              MEVDetail.empty⟩

/-- Lines 103-119 of `main.py`, the liquidity/bridge event record. -/
structure LiquidityEvent where
  protocol : String
  chain_from : String
  chain_to : String
  token : String
  amount : ℚ
  event_type : String
  timestamp : Int
  deriving DecidableEq

/-- Response of `/liquidity_bridge_analysis` (`main.py` lines 130-138): TVL
per protocol and the bridge flows `(protocol, from_chain, to_chain, total)`. -/
structure LiquidityBridgeResponse where
  tvl_by_protocol : List (String × ℚ)
  bridge_flows : List (String × String × String × ℚ)
  deriving DecidableEq

/-- One iteration of the event loop of `analyze_liquidity_bridge`
(`main.py` lines 547-566).  Note the key-registering line
`tvl_by_protocol[protocol] = tvl_by_protocol.get(protocol, 0.0)` runs before
the event type is examined, and the unknown-type branch is `continue`. -/
def liquidityStep
    (st : List (String × ℚ) × List ((String × String × String) × ℚ))
    (ev : LiquidityEvent) :
    List (String × ℚ) × List ((String × String × String) × ℚ) :=
  let protocol := ev.protocol
  let tvl := dsetD st.1 protocol (dgetD st.1 protocol 0)
  if ev.event_type = "stake" then
    (dsetD tvl protocol (dgetD tvl protocol 0 + ev.amount), st.2)
  else if ev.event_type = "unstake" then
    (dsetD tvl protocol (dgetD tvl protocol 0 - ev.amount), st.2)
  else if ev.event_type = "bridge_out" then
    (dsetD tvl protocol (dgetD tvl protocol 0 - ev.amount),
     dsetD st.2 (protocol, ev.chain_from, ev.chain_to)
       (dgetD st.2 (protocol, ev.chain_from, ev.chain_to) 0 + ev.amount))
  else if ev.event_type = "bridge_in" then
    (dsetD tvl protocol (dgetD tvl protocol 0 + ev.amount),
     dsetD st.2 (protocol, ev.chain_from, ev.chain_to)
       (dgetD st.2 (protocol, ev.chain_from, ev.chain_to) 0 + ev.amount))
  else (tvl, st.2)

/-- Lines 537-575 of `main.py`, `analyze_liquidity_bridge`. -/
def analyze_liquidity_bridge (events : List LiquidityEvent) :
    LiquidityBridgeResponse :=
  let st := events.foldl liquidityStep ([], [])
  ⟨st.1, st.2.map (fun p => (p.1.1, p.1.2.1, p.1.2.2, p.2))⟩

/-- Response of `/anomaly` (`main.py` lines 20-24); the score lives in `ℝ`
because the code takes a real square root. -/
structure AnomalyResponse where
  score : ℝ
  is_anomaly : Bool
  message : String

section AnomalySection

open Classical

/-- Lines 683-720 of `main.py`, the `/anomaly` endpoint body: z-score of the
last value against the reference window of all earlier values, with the
zero-variance sentinel branch.  `statistics.mean` is sum/N and
`statistics.pstdev` is the square root of the population variance
(divide by N). -/
noncomputable def anomaly (values : List ℝ) (threshold : ℝ) : AnomalyResponse :=
  if values.length < 2 then ⟨0, false, "Not enough data"⟩
  else
    let window := values.dropLast
    let current := values.getLastD 0
    let mean := window.sum / (window.length : ℝ)
    let variance := (window.map (fun x => (x - mean) ^ 2)).sum / (window.length : ℝ)
    let stdev := if 1 < window.length then Real.sqrt variance else 0
    if stdev = 0 then
      ⟨0, if current = mean then false else true,
        if current = mean then "Normal" else "Anomaly"⟩
    else
      let score := (current - mean) / stdev
      ⟨score, if threshold ≤ |score| then true else false,
        if threshold ≤ |score| then "Anomaly" else "Normal"⟩

end AnomalySection

def recognizedEventTypes : List String :=
  ["stake", "unstake", "bridge_out", "bridge_in"]

def ev0 : LiquidityEvent :=
  ⟨"aave", "ethereum", "polygon", "T", 5, "zap", 0⟩

def txA : TransactionInfo := ⟨"a", "0xA", "0xT", 0, 0, 0⟩

def txB : TransactionInfo := ⟨"b", "0xB", "0xU", 0, 1, 0⟩

theorem decodeOpsF_fuel_eq (f g : Nat) (bs : List Nat)
    (hf : bs.length ≤ f) (hg : bs.length ≤ g) :
    decodeOpsF f bs = decodeOpsF g bs := by
  induction f using Nat.strong_induction_on generalizing g bs with
  | _ f ih =>
    match f, g, bs with
    | 0, g, bs =>
      have : bs = [] := List.length_eq_zero.mp (Nat.le_zero.mp hf)
      subst this
      cases g <;> rfl
    | f + 1, 0, bs =>
      have : bs = [] := List.length_eq_zero.mp (Nat.le_zero.mp hg)
      subst this; rfl
    | f + 1, g + 1, [] => rfl
    | f + 1, g + 1, b :: rest =>
      have hlen : rest.length ≤ f := by simpa using hf
      have hleng : rest.length ≤ g := by simpa using hg
      have hdrop : ∀ k : Nat, (rest.drop k).length ≤ rest.length := by
        intro k; simp [List.length_drop]
      simp only [decodeOpsF]
      split
      · have h1 : ((rest.drop (b - 0x5f)).length ≤ f) := le_trans (hdrop _) hlen
        have h2 : ((rest.drop (b - 0x5f)).length ≤ g) := le_trans (hdrop _) hleng
        rw [ih f (Nat.lt_succ_self f) g _ h1 h2]
      · split
        · rw [ih f (Nat.lt_succ_self f) g _ hlen hleng]
        · split
          · rw [ih f (Nat.lt_succ_self f) g _ hlen hleng]
          · split
            · rw [ih f (Nat.lt_succ_self f) g _ hlen hleng]
            · rw [ih f (Nat.lt_succ_self f) g _ hlen hleng]

/-- One unfolding step of the scan in the PUSH case. -/
theorem decodeOps_push (b : Nat) (rest : List Nat)
    (h1 : 0x60 ≤ b) (h2 : b ≤ 0x7f) :
    decodeOps (b :: rest) =
      ("PUSH" ++ toString (b - 0x5f)) :: decodeOps (rest.drop (b - 0x5f)) := by
  show decodeOpsF (rest.length + 1) (b :: rest) = _
  simp only [decodeOpsF, if_pos (And.intro h1 h2)]
  rw [decodeOps]
  exact congrArg _ (decodeOpsF_fuel_eq _ _ _ (by simp [List.length_drop]) le_rfl)

/-- One unfolding step of the scan in a non-PUSH case. -/
theorem decodeOps_cons_other (b : Nat) (rest : List Nat)
    (h : ¬ (0x60 ≤ b ∧ b ≤ 0x7f)) :
    decodeOps (b :: rest) =
      (if 0x80 ≤ b ∧ b ≤ 0x8f then "DUP" ++ toString (b - 0x7f)
       else if 0x90 ≤ b ∧ b ≤ 0x9f then "SWAP" ++ toString (b - 0x8f)
       else if 0xa0 ≤ b ∧ b ≤ 0xa4 then "LOG" ++ toString (b - 0xa0)
       else dgetD OPCODE_MAP b "UNKNOWN") :: decodeOps rest := by
  show decodeOpsF (rest.length + 1) (b :: rest) = _
  simp only [decodeOpsF, if_neg h, decodeOps]
  split_ifs <;> rfl

theorem string_ne_of_data {s t : String} (i : Nat)
    (h : s.data[i]? ≠ t.data[i]?) : s ≠ t := by
  intro e; exact h (by rw [e])

theorem data_append (a b : String) : (a ++ b).data = a.data ++ b.data := rfl

theorem app2_get (a x y : String) (i : Nat) (h : i < a.data.length) :
    ((a ++ x) ++ y).data[i]? = a.data[i]? := by
  rw [data_append, data_append]
  rw [List.getElem?_append_left
    (by simpa using Nat.lt_of_lt_of_le h (Nat.le_add_right _ _))]
  rw [List.getElem?_append_left h]

theorem app_ne_app (a b x y u v : String) (i : Nat)
    (ha : i < a.data.length) (hb : i < b.data.length)
    (h : a.data[i]? ≠ b.data[i]?) : (a ++ x) ++ y ≠ (b ++ u) ++ v := by
  apply string_ne_of_data i
  rw [app2_get a x y i ha, app2_get b u v i hb]; exact h

theorem app_ne_lit (a x y t : String) (i : Nat)
    (ha : i < a.data.length)
    (h : a.data[i]? ≠ t.data[i]?) : (a ++ x) ++ y ≠ t := by
  apply string_ne_of_data i
  rw [app2_get a x y i ha]; exact h

/-- The five recommendation strings are pairwise distinguishable by a fixed
character position, whatever counts they embed. -/
theorem sstoreRec_ne_log (m n : Nat) : sstoreRecString m ≠ logRecString n :=
  app_ne_app _ _ _ _ _ _ 9 (by decide) (by decide) (by decide)

theorem sstoreRec_ne_call (m n : Nat) : sstoreRecString m ≠ callRecString n :=
  app_ne_app _ _ _ _ _ _ 0 (by decide) (by decide) (by decide)

theorem sstoreRec_ne_unknown (m n : Nat) :
    sstoreRecString m ≠ unknownRecString n :=
  app_ne_app _ _ _ _ _ _ 0 (by decide) (by decide) (by decide)

theorem sstoreRec_ne_generic (m : Nat) : sstoreRecString m ≠ genericRecString :=
  app_ne_lit _ _ _ _ 0 (by decide) (by decide)

theorem logRec_ne_generic (m : Nat) : logRecString m ≠ genericRecString :=
  app_ne_lit _ _ _ _ 0 (by decide) (by decide)

theorem callRec_ne_generic (m : Nat) : callRecString m ≠ genericRecString :=
  app_ne_lit _ _ _ _ 0 (by decide) (by decide)

theorem unknownRec_ne_generic (m : Nat) :
    unknownRecString m ≠ genericRecString :=
  app_ne_lit _ _ _ _ 0 (by decide) (by decide)

/-- The `sum(... for i in range(5))` at `main.py` line 895, written out. -/
theorem logOps_eq (counts : List (String × Nat)) :
    (List.range 5).foldl (fun a i => a + dgetD counts ("LOG" ++ toString i) 0) 0 =
      dgetD counts "LOG0" 0 + dgetD counts "LOG1" 0 + dgetD counts "LOG2" 0 +
      dgetD counts "LOG3" 0 + dgetD counts "LOG4" 0 := by
  norm_num [List.range_succ]
  rfl

theorem sstoreRec_mem_buildRecs (counts : List (String × Nat)) :
    sstoreRecString (dgetD counts "SSTORE" 0) ∈ buildRecs counts ↔
      10 < dgetD counts "SSTORE" 0 := by
  simp only [buildRecs]
  split_ifs <;>
    simp_all [List.mem_append, sstoreRec_ne_log, sstoreRec_ne_call,
      sstoreRec_ne_unknown, sstoreRec_ne_generic]

theorem generic_ne_sstoreRec (m : Nat) : genericRecString ≠ sstoreRecString m :=
  (sstoreRec_ne_generic m).symm

theorem generic_ne_logRec (m : Nat) : genericRecString ≠ logRecString m :=
  (logRec_ne_generic m).symm

theorem generic_ne_callRec (m : Nat) : genericRecString ≠ callRecString m :=
  (callRec_ne_generic m).symm

theorem generic_ne_unknownRec (m : Nat) :
    genericRecString ≠ unknownRecString m :=
  (unknownRec_ne_generic m).symm

/-- When none of the four threshold rules fires, the recommendation list is
exactly the generic fallback (`main.py` lines 913-916). -/
theorem buildRecs_eq_generic (counts : List (String × Nat))
    (h1 : ¬ 10 < dgetD counts "SSTORE" 0)
    (h2 : ¬ 10 < dgetD counts "LOG0" 0 + dgetD counts "LOG1" 0 +
      dgetD counts "LOG2" 0 + dgetD counts "LOG3" 0 + dgetD counts "LOG4" 0)
    (h3 : ¬ 5 < dgetD counts "CALL" 0 + dgetD counts "DELEGATECALL" 0 +
      dgetD counts "STATICCALL" 0)
    (h4 : ¬ 0 < dgetD counts "UNKNOWN" 0) :
    buildRecs counts = [genericRecString] := by
  simp only [buildRecs, logOps_eq]
  simp [h1, h2, h3, h4]

/-- When at least one threshold rule fires, the generic fallback is absent. -/
theorem buildRecs_generic_not_mem (counts : List (String × Nat))
    (h : 10 < dgetD counts "SSTORE" 0 ∨
      10 < dgetD counts "LOG0" 0 + dgetD counts "LOG1" 0 +
        dgetD counts "LOG2" 0 + dgetD counts "LOG3" 0 + dgetD counts "LOG4" 0 ∨
      5 < dgetD counts "CALL" 0 + dgetD counts "DELEGATECALL" 0 +
        dgetD counts "STATICCALL" 0 ∨
      0 < dgetD counts "UNKNOWN" 0) :
    genericRecString ∉ buildRecs counts := by
  simp only [buildRecs, logOps_eq]
  split_ifs <;>
    simp_all [List.mem_append, generic_ne_sstoreRec, generic_ne_logRec,
      generic_ne_callRec, generic_ne_unknownRec]

/-- The one-pass count/gas accumulator of `analyze_bytecode`: its gas
component is the running start plus the per-occurrence cost sum. -/
theorem foldl_counts_gas (ops : List String) (d : List (String × Nat)) (g : ℚ) :
    (ops.foldl (fun (acc : List (String × Nat) × ℚ) op =>
      (dsetD acc.1 op (dgetD acc.1 op 0 + 1),
       acc.2 + ((dgetD INTRINSIC_GAS_COSTS op 3 : Nat) : ℚ))) (d, g)).2 =
    g + (((ops.map (fun op => dgetD INTRINSIC_GAS_COSTS op 3)).sum : Nat) : ℚ) := by
  induction ops generalizing d g with
  | nil => simp
  | cons a t ih =>
    simp only [List.foldl_cons, List.map_cons, List.sum_cons, ih]
    push_cast
    ring

theorem analyze_gas_eq (ds : List (Fin 16)) :
    (analyze_bytecode ds).estimated_gas =
      ((((decode_evm_bytecode ds).map
        (fun op => dgetD INTRINSIC_GAS_COSTS op 3)).sum : Nat) : ℚ) := by
  show ((decode_evm_bytecode ds).foldl _ ([], 0)).2 = _
  rw [foldl_counts_gas]
  simp

theorem analyze_recs_eq (ds : List (Fin 16)) :
    (analyze_bytecode ds).recommendations =
      buildRecs (analyze_bytecode ds).opcode_counts := rfl

/-- The decoded sequence is never longer than the byte sequence. -/
theorem decodeOps_length_le : ∀ bs : List Nat, (decodeOps bs).length ≤ bs.length := by
  have H : ∀ n (bs : List Nat), bs.length ≤ n →
      (decodeOps bs).length ≤ bs.length := by
    intro n
    induction n with
    | zero =>
      intro bs h
      have : bs = [] := List.length_eq_zero.mp (Nat.le_zero.mp h)
      subst this; simp [decodeOps, decodeOpsF]
    | succ n ih =>
      intro bs h
      match bs with
      | [] => simp [decodeOps, decodeOpsF]
      | b :: rest =>
        have hr : rest.length ≤ n := by simpa using h
        by_cases hp : 0x60 ≤ b ∧ b ≤ 0x7f
        · rw [decodeOps_push b rest hp.1 hp.2]
          have h1 : (rest.drop (b - 0x5f)).length ≤ n :=
            le_trans (by simp [List.length_drop]) hr
          have := ih (rest.drop (b - 0x5f)) h1
          simp only [List.length_cons]
          have h2 : (rest.drop (b - 0x5f)).length ≤ rest.length := by
            simp [List.length_drop]
          omega
        · rw [decodeOps_cons_other b rest hp]
          simp only [List.length_cons]
          have := ih rest hr
          omega
  exact fun bs => H bs.length bs le_rfl

theorem dgetD_default_or_mem {κ α : Type} [DecidableEq κ]
    (d : List (κ × α)) (k : κ) (dflt : α) :
    dgetD d k dflt = dflt ∨ (k, dgetD d k dflt) ∈ d := by
  induction d with
  | nil => exact Or.inl rfl
  | cons p rest ih =>
    simp only [dgetD]
    split
    · right
      rename_i hk
      rw [← hk]
      exact List.mem_cons_self p rest
    · rcases ih with h | h
      · exact Or.inl h
      · exact Or.inr (List.mem_cons_of_mem p h)

theorem decodeOps_valid : ∀ bs : List Nat, ∀ s ∈ decodeOps bs,
    isValidOpcodeName s := by
  have H : ∀ n (bs : List Nat), bs.length ≤ n →
      ∀ s ∈ decodeOps bs, isValidOpcodeName s := by
    intro n
    induction n with
    | zero =>
      intro bs h
      have : bs = [] := List.length_eq_zero.mp (Nat.le_zero.mp h)
      subst this; simp [decodeOps, decodeOpsF]
    | succ n ih =>
      intro bs h s hs
      match bs with
      | [] => simp [decodeOps, decodeOpsF] at hs
      | b :: rest =>
        have hr : rest.length ≤ n := by simpa using h
        by_cases hp : 0x60 ≤ b ∧ b ≤ 0x7f
        · rw [decodeOps_push b rest hp.1 hp.2] at hs
          rcases List.mem_cons.mp hs with h1 | h1
          · left
            exact ⟨b - 0x5f, by omega, by omega, h1⟩
          · exact ih (rest.drop (b - 0x5f))
              (le_trans (by simp [List.length_drop]) hr) s h1
        · rw [decodeOps_cons_other b rest hp] at hs
          rcases List.mem_cons.mp hs with h1 | h1
          · subst h1
            split_ifs with hd hsw hl
            · right; left; exact ⟨b - 0x7f, by omega, by omega, rfl⟩
            · right; right; left; exact ⟨b - 0x8f, by omega, by omega, rfl⟩
            · right; right; right; left; exact ⟨b - 0xa0, by omega, rfl⟩
            · rcases dgetD_default_or_mem OPCODE_MAP b "UNKNOWN" with h2 | h2
              · right; right; right; right; right; exact h2
              · right; right; right; right; left
                exact List.mem_map.mpr ⟨(b, _), h2, rfl⟩
          · exact ih rest hr s h1
  exact fun bs => H bs.length bs le_rfl

/-- Splitting an even-length digit string with one extra digit appended: the
extra digit becomes its own final one-character token with value the digit. -/
theorem chunk2_append_single (ds : List (Fin 16)) (h : Even ds.length)
    (d : Fin 16) : chunk2 (ds ++ [d]) = chunk2 ds ++ [d.val] := by
  match ds with
  | [] => simp [chunk2]
  | [a] =>
    rw [List.length_singleton, Nat.even_iff] at h
    exact absurd h (by omega)
  | a :: b :: t =>
    have ht : Even t.length := by
      rw [Nat.even_iff] at h ⊢
      simp only [List.length_cons] at h
      omega
    have hrec := chunk2_append_single t ht d
    simp [chunk2, List.cons_append, hrec]
termination_by ds.length

/-- C2: the claim is false on the code.  For the hex input `"5b1"` (odd
number of hex digits) the trailing lone digit `1` is NOT dropped: the byte
splitting yields the tokens `["5b", "1"]`, `int("1", 16)` parses the lone
digit as the byte value 1, and the decode is `[JUMPDEST, ADD]`, which differs
from the decode `[JUMPDEST]` of `"5b"` (the same string with the last
character removed). -/
theorem c2_counterexample :
    decode_evm_bytecode [5, 11, 1] ≠ decode_evm_bytecode [5, 11] ∧
    decode_evm_bytecode [5, 11, 1] = ["JUMPDEST", "ADD"] ∧
    decode_evm_bytecode [5, 11] = ["JUMPDEST"] := by
  refine ⟨?_, by decide, by decide⟩
  decide

/-- C2 (amended): for every input whose hex portion has an odd number of hex
digits, the trailing lone digit is kept, not dropped: byte splitting produces
a final one-character token whose parsed value is that digit (0..15), and the
scan decodes the even-length prefix's byte pairs followed by that extra
byte. -/
theorem c2_trailing_digit_kept (ds : List (Fin 16)) (h : Even ds.length)
    (d : Fin 16) :
    decode_evm_bytecode (ds ++ [d]) = decodeOps (chunk2 ds ++ [d.val]) := by
  rw [decode_evm_bytecode, chunk2_append_single ds h d]

theorem c2_trailing_digit_kept_witness :
    decode_evm_bytecode [5, 11, 1] =
      decodeOps (chunk2 [5, 11] ++ [(1 : Fin 16).val]) :=
  c2_trailing_digit_kept [5, 11] (by decide) 1

/-- C3: `estimated_gas` is the sum, over every occurrence in the decoded
opcode sequence, of the intrinsic cost table entry for that opcode with
default 3 when absent; and `"0x6001600201"` decodes to
`[PUSH1, PUSH1, ADD]` with estimated gas 9. -/
theorem c3_estimated_gas :
    (∀ ds : List (Fin 16), (analyze_bytecode ds).estimated_gas =
      ((((decode_evm_bytecode ds).map
        (fun op => dgetD INTRINSIC_GAS_COSTS op 3)).sum : Nat) : ℚ)) ∧
    decode_evm_bytecode [6, 0, 0, 1, 6, 0, 0, 2, 0, 1] =
      ["PUSH1", "PUSH1", "ADD"] ∧
    (analyze_bytecode [6, 0, 0, 1, 6, 0, 0, 2, 0, 1]).estimated_gas = 9 := by
  refine ⟨analyze_gas_eq, by decide, ?_⟩
  rw [analyze_gas_eq]
  rw [show ((decode_evm_bytecode [6, 0, 0, 1, 6, 0, 0, 2, 0, 1]).map
    (fun op => dgetD INTRINSIC_GAS_COSTS op 3)).sum = 9 from by decide]
  norm_num

/-- C4: on a byte in `[0x60, 0x7f]` the decoder emits `PUSHk` with
`k = byte - 0x5f` and advances the cursor by exactly `k + 1` (here: consumes
the opcode byte and drops `k` bytes, a truncated tail dropping fewer when the
input ends); consequently the decoded length never exceeds the byte-length of
the input. -/
theorem c4_push_advance :
    (∀ (b : Nat) (rest : List Nat), 0x60 ≤ b → b ≤ 0x7f →
      decodeOps (b :: rest) =
        ("PUSH" ++ toString (b - 0x5f)) :: decodeOps (rest.drop (b - 0x5f))) ∧
    (∀ ds : List (Fin 16),
      (decode_evm_bytecode ds).length ≤ (chunk2 ds).length) :=
  ⟨fun b rest h1 h2 => decodeOps_push b rest h1 h2,
   fun ds => decodeOps_length_le (chunk2 ds)⟩

theorem c4_push_advance_witness :
    decodeOps [0x7f] = ["PUSH32"] ∧
    (decode_evm_bytecode [7, 15]).length ≤ (chunk2 [7, 15]).length := by
  constructor
  · have h := c4_push_advance.1 0x7f [] (by norm_num) (by norm_num)
    rw [h]
    decide
  · exact c4_push_advance.2 [7, 15]

/-- C5: for every valid hex input, decoding is total (the embedding is a
total function) and every emitted opcode name is from the fixed mnemonic
set — the `PUSH1..PUSH32` / `DUP1..DUP16` / `SWAP1..SWAP16` / `LOG0..LOG4`
families or the static opcode map — or is the sentinel `UNKNOWN`. -/
theorem c5_decode_alphabet :
    ∀ (ds : List (Fin 16)), ∀ s ∈ decode_evm_bytecode ds,
      isValidOpcodeName s :=
  fun ds => decodeOps_valid (chunk2 ds)

theorem c5_decode_alphabet_witness : isValidOpcodeName "SDIV" :=
  c5_decode_alphabet [0, 5] "SDIV" (by decide)

/-- C6: the SSTORE recommendation (reporting the exact `SSTORE` count) is in
the recommendation list iff the count exceeds 10; eleven SSTOREs trigger it
with count 11, ten do not trigger it (the result is just the generic
fallback). -/
theorem c6_sstore_rule :
    (∀ ds : List (Fin 16),
      sstoreRecString (dgetD (analyze_bytecode ds).opcode_counts "SSTORE" 0) ∈
          (analyze_bytecode ds).recommendations ↔
        10 < dgetD (analyze_bytecode ds).opcode_counts "SSTORE" 0) ∧
    dgetD (analyze_bytecode (digits55 11)).opcode_counts "SSTORE" 0 = 11 ∧
    (analyze_bytecode (digits55 11)).recommendations = [sstoreRecString 11] ∧
    dgetD (analyze_bytecode (digits55 10)).opcode_counts "SSTORE" 0 = 10 ∧
    (analyze_bytecode (digits55 10)).recommendations = [genericRecString] := by
  refine ⟨fun ds => ?_, by decide, by decide, by decide, by decide⟩
  rw [analyze_recs_eq]
  exact sstoreRec_mem_buildRecs _

/-- C7: when none of the four threshold rules fires the recommendation list
is exactly the generic fallback; when at least one fires, the generic
fallback is absent. -/
theorem c7_generic_fallback :
    ∀ ds : List (Fin 16),
      ((¬ 10 < dgetD (analyze_bytecode ds).opcode_counts "SSTORE" 0) →
       (¬ 10 < dgetD (analyze_bytecode ds).opcode_counts "LOG0" 0 +
          dgetD (analyze_bytecode ds).opcode_counts "LOG1" 0 +
          dgetD (analyze_bytecode ds).opcode_counts "LOG2" 0 +
          dgetD (analyze_bytecode ds).opcode_counts "LOG3" 0 +
          dgetD (analyze_bytecode ds).opcode_counts "LOG4" 0) →
       (¬ 5 < dgetD (analyze_bytecode ds).opcode_counts "CALL" 0 +
          dgetD (analyze_bytecode ds).opcode_counts "DELEGATECALL" 0 +
          dgetD (analyze_bytecode ds).opcode_counts "STATICCALL" 0) →
       (¬ 0 < dgetD (analyze_bytecode ds).opcode_counts "UNKNOWN" 0) →
        (analyze_bytecode ds).recommendations = [genericRecString]) ∧
      ((10 < dgetD (analyze_bytecode ds).opcode_counts "SSTORE" 0 ∨
        10 < dgetD (analyze_bytecode ds).opcode_counts "LOG0" 0 +
          dgetD (analyze_bytecode ds).opcode_counts "LOG1" 0 +
          dgetD (analyze_bytecode ds).opcode_counts "LOG2" 0 +
          dgetD (analyze_bytecode ds).opcode_counts "LOG3" 0 +
          dgetD (analyze_bytecode ds).opcode_counts "LOG4" 0 ∨
        5 < dgetD (analyze_bytecode ds).opcode_counts "CALL" 0 +
          dgetD (analyze_bytecode ds).opcode_counts "DELEGATECALL" 0 +
          dgetD (analyze_bytecode ds).opcode_counts "STATICCALL" 0 ∨
        0 < dgetD (analyze_bytecode ds).opcode_counts "UNKNOWN" 0) →
        genericRecString ∉ (analyze_bytecode ds).recommendations) := by
  intro ds
  constructor
  · intro h1 h2 h3 h4
    rw [analyze_recs_eq]
    exact buildRecs_eq_generic _ h1 h2 h3 h4
  · intro h
    rw [analyze_recs_eq]
    exact buildRecs_generic_not_mem _ h

theorem c7_generic_fallback_witness :
    (analyze_bytecode []).recommendations = [genericRecString] ∧
    genericRecString ∉ (analyze_bytecode [0, 12]).recommendations := by
  constructor
  · exact (c7_generic_fallback []).1 (by decide) (by decide) (by decide)
      (by decide)
  · exact (c7_generic_fallback [0, 12]).2 (by decide)

theorem dgetD_dsetD_same {κ α : Type} [DecidableEq κ]
    (d : List (κ × α)) (k : κ) (v : α) (dflt : α) :
    dgetD (dsetD d k v) k dflt = v := by
  induction d with
  | nil => simp [dsetD, dgetD]
  | cons p rest ih =>
    by_cases h : p.1 = k
    · simp [dsetD, dgetD, h]
    · simp [dsetD, dgetD, h, ih]

theorem dgetD_dsetD_ne {κ α : Type} [DecidableEq κ]
    (d : List (κ × α)) (k q : κ) (v : α) (dflt : α) (h : q ≠ k) :
    dgetD (dsetD d k v) q dflt = dgetD d q dflt := by
  induction d with
  | nil =>
    simp only [dsetD, dgetD]
    rw [if_neg (fun e => h e.symm)]
  | cons p rest ih =>
    by_cases hp : p.1 = k
    · simp only [dsetD, if_pos hp, dgetD]
      rw [if_neg (fun e => h e.symm), if_neg (fun e => h (hp.symm.trans e).symm)]
    · simp only [dsetD, if_neg hp, dgetD]
      split
      · rfl
      · exact ih

theorem dHasKey_iff {κ α : Type} [DecidableEq κ] (d : List (κ × α)) (k : κ) :
    dHasKey d k = true ↔ ∃ p ∈ d, p.1 = k := by
  simp [dHasKey, List.any_eq_true]

theorem dsetD_keys {κ α : Type} [DecidableEq κ]
    (d : List (κ × α)) (k q : κ) (v : α) :
    (∃ p ∈ dsetD d k v, p.1 = q) ↔ (k = q ∨ ∃ p ∈ d, p.1 = q) := by
  induction d with
  | nil => simp [dsetD]
  | cons p rest ih =>
    rcases p with ⟨pk, pv⟩
    by_cases hp : pk = k
    · subst hp
      simp [dsetD]
    · simp [dsetD, hp, ih]
      tauto

theorem dHasKey_dsetD_self {κ α : Type} [DecidableEq κ]
    (d : List (κ × α)) (k : κ) (v : α) :
    dHasKey (dsetD d k v) k = true := by
  rw [dHasKey_iff, dsetD_keys]
  exact Or.inl rfl

theorem dHasKey_dsetD_mono {κ α : Type} [DecidableEq κ]
    (d : List (κ × α)) (k q : κ) (v : α) (h : dHasKey d q = true) :
    dHasKey (dsetD d k v) q = true := by
  rw [dHasKey_iff, dsetD_keys]
  exact Or.inr ((dHasKey_iff d q).mp h)

/-- The value-preserving ensure-key line: setting a key to its own looked-up
default changes no lookup. -/
theorem dgetD_ensure {κ α : Type} [DecidableEq κ]
    (d : List (κ × α)) (k q : κ) (dflt : α) :
    dgetD (dsetD d k (dgetD d k dflt)) q dflt = dgetD d q dflt := by
  by_cases h : q = k
  · subst h
    rw [dgetD_dsetD_same]
  · rw [dgetD_dsetD_ne _ _ _ _ _ h]

theorem liquidityStep_hasKey_self
    (st : List (String × ℚ) × List ((String × String × String) × ℚ))
    (ev : LiquidityEvent) :
    dHasKey (liquidityStep st ev).1 ev.protocol = true := by
  simp only [liquidityStep]
  split_ifs <;> exact dHasKey_dsetD_self _ _ _

theorem liquidityStep_hasKey_mono
    (st : List (String × ℚ) × List ((String × String × String) × ℚ))
    (ev : LiquidityEvent) (q : String) (h : dHasKey st.1 q = true) :
    dHasKey (liquidityStep st ev).1 q = true := by
  simp only [liquidityStep]
  split_ifs <;>
    solve
      | exact dHasKey_dsetD_mono _ _ _ _ (dHasKey_dsetD_mono _ _ _ _ h)
      | exact dHasKey_dsetD_mono _ _ _ _ h

theorem liquidityStep_value_ne
    (st : List (String × ℚ) × List ((String × String × String) × ℚ))
    (ev : LiquidityEvent) (q : String) (h : q ≠ ev.protocol) :
    dgetD (liquidityStep st ev).1 q 0 = dgetD st.1 q 0 := by
  simp only [liquidityStep]
  split_ifs <;>
    simp [dgetD_dsetD_ne _ _ _ _ _ h, dgetD_ensure]

theorem liquidityStep_unrecognized
    (st : List (String × ℚ) × List ((String × String × String) × ℚ))
    (ev : LiquidityEvent) (h : ev.event_type ∉ recognizedEventTypes) :
    (∀ q, dgetD (liquidityStep st ev).1 q 0 = dgetD st.1 q 0) ∧
    (liquidityStep st ev).2 = st.2 := by
  have h1 : ev.event_type ≠ "stake" := fun e => h (by simp [recognizedEventTypes, e])
  have h2 : ev.event_type ≠ "unstake" := fun e => h (by simp [recognizedEventTypes, e])
  have h3 : ev.event_type ≠ "bridge_out" := fun e => h (by simp [recognizedEventTypes, e])
  have h4 : ev.event_type ≠ "bridge_in" := fun e => h (by simp [recognizedEventTypes, e])
  constructor
  · intro q
    simp only [liquidityStep, if_neg h1, if_neg h2, if_neg h3, if_neg h4]
    exact dgetD_ensure _ _ _ _
  · simp only [liquidityStep, if_neg h1, if_neg h2, if_neg h3, if_neg h4]

theorem foldl_liquidity_hasKey_mono
    (evs : List LiquidityEvent)
    (st : List (String × ℚ) × List ((String × String × String) × ℚ))
    (q : String) (h : dHasKey st.1 q = true) :
    dHasKey (evs.foldl liquidityStep st).1 q = true := by
  induction evs generalizing st with
  | nil => exact h
  | cons e t ih =>
    exact ih (liquidityStep st e) (liquidityStep_hasKey_mono st e q h)

theorem foldl_liquidity_hasKey
    (evs : List LiquidityEvent)
    (st : List (String × ℚ) × List ((String × String × String) × ℚ))
    (ev : LiquidityEvent) (hmem : ev ∈ evs) :
    dHasKey (evs.foldl liquidityStep st).1 ev.protocol = true := by
  induction evs generalizing st with
  | nil => simp at hmem
  | cons e t ih =>
    rcases List.mem_cons.mp hmem with h | h
    · subst h
      exact foldl_liquidity_hasKey_mono t _ _ (liquidityStep_hasKey_self st ev)
    · exact ih _ h

theorem foldl_liquidity_value_unrecognized
    (evs : List LiquidityEvent)
    (st : List (String × ℚ) × List ((String × String × String) × ℚ))
    (p : String)
    (h : ∀ ev ∈ evs, ev.protocol = p → ev.event_type ∉ recognizedEventTypes) :
    dgetD (evs.foldl liquidityStep st).1 p 0 = dgetD st.1 p 0 := by
  induction evs generalizing st with
  | nil => rfl
  | cons e t ih =>
    have hrest : ∀ ev ∈ t, ev.protocol = p → ev.event_type ∉ recognizedEventTypes :=
      fun ev hm => h ev (List.mem_cons_of_mem e hm)
    rw [List.foldl_cons, ih _ hrest]
    by_cases hp : e.protocol = p
    · have hu := h e (List.mem_cons_self e t) hp
      rw [← hp]
      have := (liquidityStep_unrecognized st e hu).1 e.protocol
      rw [hp] at this
      rw [← hp] at this
      exact this
    · exact liquidityStep_value_ne st e p (fun hq => hp hq.symm)

/-- C10: every protocol named by any event is a key of `tvl_by_protocol`;
a protocol named only by events of unrecognized type has value 0.0; and an
event of unrecognized type changes no TVL value and no bridge-flow total. -/
theorem c10_unrecognized_events :
    (∀ (events : List LiquidityEvent), ∀ ev ∈ events,
      dHasKey (analyze_liquidity_bridge events).tvl_by_protocol ev.protocol
        = true) ∧
    (∀ (events : List LiquidityEvent) (p : String),
      (∃ ev ∈ events, ev.protocol = p) →
      (∀ ev ∈ events, ev.protocol = p →
        ev.event_type ∉ recognizedEventTypes) →
      dHasKey (analyze_liquidity_bridge events).tvl_by_protocol p = true ∧
      dgetD (analyze_liquidity_bridge events).tvl_by_protocol p 0 = 0) ∧
    (∀ (st : List (String × ℚ) × List ((String × String × String) × ℚ))
      (ev : LiquidityEvent), ev.event_type ∉ recognizedEventTypes →
      (∀ q, dgetD (liquidityStep st ev).1 q 0 = dgetD st.1 q 0) ∧
      (liquidityStep st ev).2 = st.2) := by
  refine ⟨?_, ?_, liquidityStep_unrecognized⟩
  · intro events ev hmem
    exact foldl_liquidity_hasKey events ([], []) ev hmem
  · intro events p hex hall
    constructor
    · obtain ⟨ev, hm, hp⟩ := hex
      rw [← hp]
      exact foldl_liquidity_hasKey events ([], []) ev hm
    · exact foldl_liquidity_value_unrecognized events ([], []) p hall

theorem c10_unrecognized_events_witness :
    dHasKey (analyze_liquidity_bridge [ev0]).tvl_by_protocol "aave" = true ∧
    dgetD (analyze_liquidity_bridge [ev0]).tvl_by_protocol "aave" 0 = 0 :=
  c10_unrecognized_events.2.1 [ev0] "aave" ⟨ev0, by simp, rfl⟩
    (by
      intro ev hm hp
      have he : ev = ev0 := by simpa using hm
      subst he
      decide)

/-- C8: with fewer than two observations the forecast does not raise and
returns `horizon` copies of the last observed value (0.0 for an empty list),
slope 0.0 and intercept that same last value. -/
theorem c8_short_series_forecast (values : List ℚ) (horizon : Int)
    (h : values.length < 2) (hh : 0 ≤ horizon) :
    forecast_time_series values horizon =
      ⟨List.replicate horizon.toNat (values.getLastD 0), 0,
        values.getLastD 0⟩ ∧
    ((List.replicate horizon.toNat (values.getLastD 0)).length : Int)
      = horizon := by
  constructor
  · simp only [forecast_time_series, if_pos h]
  · simp [List.length_replicate, Int.toNat_of_nonneg hh]

theorem c8_short_series_forecast_witness :
    forecast_time_series [] 2 =
      ⟨List.replicate (2 : Int).toNat (([] : List ℚ).getLastD 0), 0,
        ([] : List ℚ).getLastD 0⟩ ∧
    ((List.replicate (2 : Int).toNat (([] : List ℚ).getLastD 0)).length : Int)
      = 2 :=
  c8_short_series_forecast [] 2 (by decide) (by decide)

theorem insOrd_length (t : TransactionInfo) (l : List TransactionInfo) :
    (insOrd t l).length = l.length + 1 := by
  induction l with
  | nil => rfl
  | cons x xs ih =>
    simp only [insOrd]
    split
    · simp [ih]
    · simp

theorem sortTxs_length (l : List TransactionInfo) :
    (sortTxs l).length = l.length := by
  have H : ∀ (acc : List TransactionInfo),
      (l.foldl (fun acc t => insOrd t acc) acc).length =
        acc.length + l.length := by
    induction l with
    | nil => intro acc; simp
    | cons x xs ih =>
      intro acc
      simp only [List.foldl_cons, ih, insOrd_length, List.length_cons]
      omega
  simpa using H []

/-- C9: on the gas-price-variance fallback path (two or more transactions,
none of the sandwich / front-running / repeated-target patterns matched) the
spam-score denominator is never zero — it is the constant 1 whenever the
maximum gas price is zero — and the resulting spam score is at most 0.2. -/
theorem c9_mev_fallback (transactions : List TransactionInfo)
    (hlen : ¬ transactions.length < 2)
    (h1 : sandwichScan 0 (sortTxs transactions) = none)
    (h2 : frontRunScan 0 (sortTxs transactions) = none)
    (h3 : (targetCounts (sortTxs transactions)).find?
      (fun p => decide (3 ≤ p.2)) = none) :
    mevDenominator (mevGasPrices (sortTxs transactions)) ≠ 0 ∧
    (listMaxD (mevGasPrices (sortTxs transactions)) = 0 →
      mevDenominator (mevGasPrices (sortTxs transactions)) = 1) ∧
    (detect_mev_bot transactions).spam_score =
      min (mevVariance (mevGasPrices (sortTxs transactions)) /
        mevDenominator (mevGasPrices (sortTxs transactions))) (1 / 5) ∧
    (detect_mev_bot transactions).spam_score ≤ 1 / 5 := by
  have hnn : sortTxs transactions ≠ [] := by
    intro e
    have hl := sortTxs_length transactions
    rw [e] at hl
    simp at hl
    omega
  have hne : (mevGasPrices (sortTxs transactions)).isEmpty = false := by
    rw [mevGasPrices]
    simpa [List.isEmpty_iff] using hnn
  have hdet : detect_mev_bot transactions =
      ⟨"none", "none",
        min (mevVariance (mevGasPrices (sortTxs transactions)) /
          mevDenominator (mevGasPrices (sortTxs transactions))) (1 / 5),
        MEVDetail.empty⟩ := by
    rw [detect_mev_bot, if_neg hlen]
    simp only [h1, h2, h3, hne]
    simp
  refine ⟨?_, ?_, ?_, ?_⟩
  · rw [mevDenominator]
    split_ifs with hm
    · exact hm
    · exact one_ne_zero
  · intro h0
    rw [mevDenominator, if_neg (by simp [h0])]
  · rw [hdet]
  · rw [hdet]
    exact min_le_right _ _

theorem anomaly_zero_var_eval :
    anomaly [1, 1, 1, 1, 100] 2 = ⟨0, true, "Anomaly"⟩ := by
  simp only [anomaly]
  norm_num [List.dropLast, List.getLastD, Real.sqrt_zero]

theorem c9_mev_fallback_witness :
    mevDenominator (mevGasPrices (sortTxs [txA, txB])) ≠ 0 ∧
    (listMaxD (mevGasPrices (sortTxs [txA, txB])) = 0 →
      mevDenominator (mevGasPrices (sortTxs [txA, txB])) = 1) ∧
    (detect_mev_bot [txA, txB]).spam_score =
      min (mevVariance (mevGasPrices (sortTxs [txA, txB])) /
        mevDenominator (mevGasPrices (sortTxs [txA, txB]))) (1 / 5) ∧
    (detect_mev_bot [txA, txB]).spam_score ≤ 1 / 5 :=
  c9_mev_fallback [txA, txB] (by decide) (by decide)
    (by
      have hs : sortTxs [txA, txB] = [txA, txB] := by decide
      rw [hs]
      simp only [frontRunScan]
      rw [if_neg]
      intro hc
      have hgas := hc.1
      norm_num [txA, txB] at hgas)
    (by decide)

/-- C1: the claim is false on the code.  For input `[1, 1, 1, 1, 100]` with
the default threshold 2.0 the reference window `[1, 1, 1, 1]` has zero
variance, so the code takes the zero-stdev branch and returns the sentinel
score 0.0 — not a non-zero z-score — while still flagging the anomaly. -/
theorem c1_counterexample :
    ¬ ((anomaly [1, 1, 1, 1, 100] 2).score ≠ 0 ∧
       (anomaly [1, 1, 1, 1, 100] 2).is_anomaly = true) := by
  rw [anomaly_zero_var_eval]
  simp

/-- C1 (amended): for input `[1, 1, 1, 1, 100]` with the default threshold
2.0, the reference window has zero variance, so the returned score is the
0.0 sentinel (not a non-zero z-score) and `is_anomaly` is true with message
"Anomaly". -/
theorem c1_zero_variance_sentinel :
    (anomaly [1, 1, 1, 1, 100] 2).score = 0 ∧
    (anomaly [1, 1, 1, 1, 100] 2).is_anomaly = true ∧
    (anomaly [1, 1, 1, 1, 100] 2).message = "Anomaly" := by
  rw [anomaly_zero_var_eval]
  exact ⟨rfl, rfl, rfl⟩
